import Mathlib

/-!
Shallow embedding of `db-checker.js` (MongoDB hyperlink checker).

The embedding models the link-discovery-and-validation core of the program:

* `extractUrlsFromText` — the regex scan `/(https?:\/\/[^\s"']+)/g` over a
  string, modelled as a left-to-right, greedy, non-overlapping scanner over
  the string's character list;
* `checkUrl` — the validity checker, parametrised by an abstract network
  (`Network`), recording the fetches it performs in a trace;
* the field sniffer, the two harvesting passes and the audit session from
  `main`, modelled over an explicit JavaScript-value type `JsValue`.
-/

namespace DbChecker

/-- The character class the JS regex engine treats as whitespace (`\s`):
space, tab, line feed, vertical tab, form feed, carriage return, plus the
Unicode space separators, line/paragraph separators and the BOM. -/
def jsWhitespace (c : Char) : Bool :=
  c == ' ' || c == '\t' || c == '\n' || c == '\x0b' || c == '\x0c' ||
  c == '\r' || c == '\u00A0' || c == '\u1680' ||
  (decide ('\u2000' ≤ c) && decide (c ≤ '\u200A')) ||
  c == '\u2028' || c == '\u2029' || c == '\u202F' || c == '\u205F' ||
  c == '\u3000' || c == '\uFEFF'

/-- The character class `[^\s"']` of the URL regex: anything that is not
whitespace, a double quote, or a single quote. -/
def urlChar (c : Char) : Bool :=
  !jsWhitespace c && c != '"' && c != '\''

/-- Contiguous-substring test on character lists (JS `String.prototype.includes`). -/
def listContains (pat : List Char) : List Char → Bool
  | [] => pat.isEmpty
  | c :: cs => pat.isPrefixOf (c :: cs) || listContains pat cs

/-- JS `s.includes(pat)`. -/
def jsIncludes (s pat : String) : Bool :=
  listContains pat.data s.data

/-- JS `s.startsWith(pat)`. -/
def jsStartsWith (s pat : String) : Bool :=
  pat.data.isPrefixOf s.data

/-- JS `s.trim()`: strip leading and trailing whitespace. -/
def jsTrim (s : String) : String :=
  String.mk (((s.data.dropWhile jsWhitespace).reverse.dropWhile jsWhitespace).reverse)

/-- Attempt to match the regex `https?:\/\/[^\s"']+` at the head of `cs`.
On success, returns the matched characters and the remainder of the input
after the match.  The scheme literal must be present, and the `+` demands
at least one `urlChar` after it; the `+` is greedy, so the match extends
over the maximal run of `urlChar`s. -/
def matchAt (cs : List Char) : Option (List Char × List Char) :=
  if ("http://".data).isPrefixOf cs then
    let body := (cs.drop 7).takeWhile urlChar
    if body.isEmpty then none
    else some ("http://".data ++ body, cs.drop (7 + body.length))
  else if ("https://".data).isPrefixOf cs then
    let body := (cs.drop 8).takeWhile urlChar
    if body.isEmpty then none
    else some ("https://".data ++ body, cs.drop (8 + body.length))
  else none

/-- Global regex scan: walk the input left to right; at each position take
the match if one starts there (continuing after it), otherwise advance one
character.  Fuelled by the input length: every step consumes at least one
character, so `cs.length` units of fuel always suffice. -/
def scanUrlsAux : Nat → List Char → List (List Char)
  | 0, _ => []
  | _ + 1, [] => []
  | fuel + 1, c :: cs =>
    match matchAt (c :: cs) with
    | some ur => ur.1 :: scanUrlsAux fuel ur.2
    | none => scanUrlsAux fuel cs

/-- All matches of the URL regex in `cs`, in order. -/
def scanUrls (cs : List Char) : List (List Char) :=
  scanUrlsAux cs.length cs

/-- `extractUrlsFromText` from the source: `text.match(urlRegex) || []`. -/
def extractUrlsFromText (text : String) : List String :=
  (scanUrls text.data).map String.mk

/-- HTTP method of a fetch: full content fetch or headers-only probe. -/
inductive Method
  | GET
  | HEAD
  deriving DecidableEq, Repr

/-- A successful HTTP response: a status code and a body. -/
structure Response where
  status : Nat
  body : String
  deriving DecidableEq, Repr

/-- Result of one fetch: a response, or a transport failure with a message. -/
inductive FetchResult
  | ok (r : Response)
  | err (msg : String)
  deriving DecidableEq, Repr

/-- The abstract transport: what `fetch(url, { method })` yields. -/
def Network : Type :=
  String → Method → FetchResult

/-- The outcome of `checkUrl`: the broken verdict, the retained transport
failure message (if a fetch threw), and the fetches issued, in order. -/
structure CheckOutcome where
  broken : Bool
  errMsg : Option String
  trace : List (String × Method)
  deriving DecidableEq, Repr

/-- The phrase list of the YouTube branch of `checkUrl`. -/
def unavailablePhrases : List String :=
  ["This video is no longer available", "Video unavailable",
   "This video is private", "has been removed"]

/-- `checkUrl` from the source.  An empty or all-whitespace URL is not
broken and nothing is fetched.  A URL containing `youtube.com` or
`youtu.be` gets a GET and is broken iff the body contains one of the
unavailability phrases.  Any other URL gets a HEAD; only a 404 escalates
to a GET, and the URL is broken iff that GET is also 404.  A transport
failure at any fetch makes the URL broken, retaining the message. -/
def checkUrl (net : Network) (url : String) : CheckOutcome :=
  if url == "" || jsTrim url == "" then ⟨false, none, []⟩
  else
    let isYouTube := jsIncludes url "youtube.com" || jsIncludes url "youtu.be"
    if isYouTube then
      match net url .GET with
      | .ok r =>
        ⟨unavailablePhrases.any (fun phrase => jsIncludes r.body phrase),
         none, [(url, .GET)]⟩
      | .err m => ⟨true, some m, [(url, .GET)]⟩
    else
      match net url .HEAD with
      | .ok r =>
        if r.status == 404 then
          match net url .GET with
          | .ok r2 => ⟨r2.status == 404, none, [(url, .HEAD), (url, .GET)]⟩
          | .err m => ⟨true, some m, [(url, .HEAD), (url, .GET)]⟩
        else ⟨false, none, [(url, .HEAD)]⟩
      | .err m => ⟨true, some m, [(url, .HEAD)]⟩

/-- A JavaScript value as stored in a document field: `undefined`, `null`,
a boolean, a number, a string, an array of values, or some other object. -/
inductive JsValue
  | vundefined
  | vnull
  | vbool (b : Bool)
  | vnum (n : Int)
  | vstr (s : String)
  | varr (items : List JsValue)
  | vobj

/-- JS truthiness test, negated: `!value` in the source.  `undefined`,
`null`, `false`, `0` and `""` are falsy; arrays and objects never are. -/
def falsy : JsValue → Bool
  | .vundefined => true
  | .vnull => true
  | .vbool b => !b
  | .vnum n => n == 0
  | .vstr s => s == ""
  | .varr _ => false
  | .vobj => false

/-- A document: an opaque id plus its fields in key order. -/
structure Document where
  id : Nat
  fields : List (String × JsValue)

/-- `Object.keys(doc)`: the field names, in order. -/
def Document.keys (d : Document) : List String :=
  d.fields.map Prod.fst

/-- `doc[key]`: the first value bound to `key`, or `undefined`. -/
def Document.get (d : Document) (key : String) : JsValue :=
  (d.fields.lookup key).getD .vundefined

/-- Whether a string value holds a link substring, per the sniffer:
`value.includes('http://') || value.includes('https://')`. -/
def containsHttp (s : String) : Bool :=
  jsIncludes s "http://" || jsIncludes s "https://"

/-- The sniffer's per-value classification: a string containing a link
substring, or an array with at least one such string element. -/
def qualifies : JsValue → Bool
  | .vstr s => containsHttp s
  | .varr items =>
    items.any fun item =>
      match item with
      | .vstr s => containsHttp s
      | _ => false
  | _ => false

/-- `candidateFields.add(key)` on a `Set` kept in insertion order. -/
def addField (fields : List String) (key : String) : List String :=
  if key ∈ fields then fields else fields ++ [key]

/-- One document's contribution to the candidate field set: for each key of
the document, add the key if its value qualifies. -/
def sniffStep (acc : List String) (d : Document) : List String :=
  d.keys.foldl (fun acc2 key => if qualifies (d.get key) then addField acc2 key else acc2) acc

/-- The field sniffer of `main` (lines 163–177): scan the sampled documents
and collect every field whose value holds a link substring. -/
def sniff (sampleDocs : List Document) : List String :=
  sampleDocs.foldl sniffStep []

/-- The per-string-value URL harvest of both passes: extract URLs by regex
and, when that finds nothing but the value starts with a scheme, treat the
whole value as one URL. -/
def extractWithFallback (s : String) : List String :=
  let urls := extractUrlsFromText s
  if urls.isEmpty && (jsStartsWith s "http://" || jsStartsWith s "https://") then [s]
  else urls

/-- One array element's contribution in the harvest: string elements are
scanned (with the fallback) and concatenated onto the URLs so far; other
elements contribute nothing. -/
def arrStep (urls : List String) (item : JsValue) : List String :=
  match item with
  | .vstr s => urls ++ extractWithFallback s
  | _ => urls

/-- The URLs harvested from one field value, as in both passes of `main`:
skip falsy values; scan a string value directly; scan each string element
of an array value, concatenating in element order; yield nothing for other
value shapes. -/
def urlsOfValue (v : JsValue) : List String :=
  if falsy v then []
  else
    match v with
    | .vstr s => extractWithFallback s
    | .varr items => items.foldl arrStep []
    | _ => []

/-- One unit of work: the document, field and URL text of a harvested link. -/
structure Occurrence where
  docId : Nat
  field : String
  url : String
  deriving DecidableEq, Repr

/-- The occurrence sequence the checking pass iterates (lines 222–254,
without the checking): documents in order, fields in candidate order,
URLs in harvest order. -/
def harvest (docs : List Document) (fields : List String) : List Occurrence :=
  docs.flatMap fun doc =>
    fields.flatMap fun field =>
      (urlsOfValue (doc.get field)).map fun url => ⟨doc.id, field, url⟩

/-- The counting pass of `main` (lines 191–215): accumulate
`totalLinks += urls.length` over documents and candidate fields. -/
def countPass (docs : List Document) (fields : List String) : Nat :=
  docs.foldl
    (fun totalLinks doc =>
      fields.foldl (fun t field => t + (urlsOfValue (doc.get field)).length) totalLinks)
    0

/-- A reported broken link: document, field, URL, its 1-based index in the
enumeration and the pass-1 total quoted alongside it. -/
structure BrokenRecord where
  docId : Nat
  field : String
  url : String
  index : Nat
  total : Nat
  deriving DecidableEq, Repr

/-- The mutable state of the checking pass: the running link index, the
broken-link count, the emitted broken records, and the fetches performed. -/
structure PassState where
  currentLink : Nat
  brokenLinksCount : Nat
  records : List BrokenRecord
  trace : List (String × Method)
  deriving DecidableEq, Repr

/-- One checked URL in the checking pass: bump the index, check, and on a
broken verdict append a record. -/
def checkStep (net : Network) (totalLinks : Nat) (docId : Nat) (field : String)
    (st : PassState) (url : String) : PassState :=
  let outcome := checkUrl net url
  if outcome.broken then
    ⟨st.currentLink + 1, st.brokenLinksCount + 1,
     st.records ++ [⟨docId, field, url, st.currentLink + 1, totalLinks⟩],
     st.trace ++ outcome.trace⟩
  else
    ⟨st.currentLink + 1, st.brokenLinksCount, st.records, st.trace ++ outcome.trace⟩

/-- The checking pass of `main` (lines 218–254): iterate the same
document/field/URL enumeration as the counting pass, checking each URL. -/
def runCheckPass (net : Network) (docs : List Document) (fields : List String)
    (totalLinks : Nat) : PassState :=
  docs.foldl
    (fun st doc =>
      fields.foldl
        (fun st2 field =>
          (urlsOfValue (doc.get field)).foldl (checkStep net totalLinks doc.id field) st2)
        st)
    ⟨0, 0, [], []⟩

/-- How a session ends: early exit with no candidate fields, or a summary
of documents processed, total links, broken count and emitted records. -/
inductive SessionResult
  | noLinksFound
  | summary (documentsProcessed totalLinks brokenLinksCount : Nat)
      (records : List BrokenRecord)
  deriving DecidableEq, Repr

/-- The audit session of `main` after collection selection: sniff the first
ten documents; if no field qualifies, stop with `noLinksFound`; otherwise
run the counting pass and then the checking pass.  Also returns every fetch
the session performed. -/
def auditSession (net : Network) (docs : List Document) :
    SessionResult × List (String × Method) :=
  let candidateFields := sniff (docs.take 10)
  if candidateFields.isEmpty then (.noLinksFound, [])
  else
    let totalLinks := countPass docs candidateFields
    let st := runCheckPass net docs candidateFields totalLinks
    (.summary docs.length totalLinks st.brokenLinksCount st.records, st.trace)

/-! Concrete fixtures used to instantiate the theorems below. -/

/-- A network on which every fetch succeeds with status 200. -/
def netOk200 : Network := fun _ _ => .ok ⟨200, "<html>ok</html>"⟩

/-- A network on which every fetch succeeds with status 404. -/
def netGone404 : Network := fun _ _ => .ok ⟨404, "not found"⟩

/-- A network on which every fetch returns a page marked unavailable. -/
def netYtGone : Network := fun _ _ => .ok ⟨200, "Sorry. Video unavailable."⟩

/-- A network on which every fetch fails at the transport level. -/
def netDown : Network := fun _ _ => .err "connect ECONNREFUSED"

/-- A two-field sample document: one link-bearing field, one numeric. -/
def sampleDoc : Document :=
  ⟨0, [("link", .vstr "see https://x.example/a now"), ("n", .vnum 3)]⟩

/-- A document with no link-bearing field. -/
def sampleDoc2 : Document := ⟨1, [("other", .vstr "nothing here")]⟩

/-!
Helper lemmas about the string model, the sniffer and the passes.
The claim theorems at the end of the file are stated from these.
-/

theorem listContains_sound {pat l : List Char} (h : listContains pat l = true) :
    pat <:+: l := by
  induction l with
  | nil =>
    simp only [listContains, List.isEmpty_eq_true] at h
    simp [h]
  | cons c cs ih =>
    simp only [listContains, Bool.or_eq_true] at h
    rcases h with h | h
    · exact (List.isPrefixOf_iff_prefix.mp h).isInfix
    · exact List.infix_cons (ih h)

theorem not_all_whitespace_of_includes {url pat : String} {c : Char}
    (hmem : c ∈ pat.data) (hw : jsWhitespace c = false)
    (h : jsIncludes url pat = true) :
    ¬ ∀ a ∈ url.data, jsWhitespace a = true := by
  intro hall
  have hc : c ∈ url.data := (listContains_sound h).subset hmem
  rw [hall c hc] at hw
  cases hw

theorem jsTrim_eq_empty_iff (s : String) :
    jsTrim s = "" ↔ ∀ c ∈ s.data, jsWhitespace c = true := by
  constructor
  · intro h c hc
    have hdata :
        ((s.data.dropWhile jsWhitespace).reverse.dropWhile jsWhitespace).reverse = [] := by
      have := congrArg String.data h
      simpa [jsTrim] using this
    rw [List.reverse_eq_nil_iff, List.dropWhile_eq_nil_iff] at hdata
    have hsplit := List.takeWhile_append_dropWhile jsWhitespace s.data
    rw [← hsplit] at hc
    rcases List.mem_append.mp hc with h1 | h1
    · exact List.mem_takeWhile_imp h1
    · exact hdata _ (List.mem_reverse.mpr h1)
  · intro h
    have hdrop : s.data.dropWhile jsWhitespace = [] := List.dropWhile_eq_nil_iff.mpr h
    simp [jsTrim, hdrop]

theorem checkUrl_guard_iff (url : String) :
    (url == "" || jsTrim url == "") = true ↔ ∀ c ∈ url.data, jsWhitespace c = true := by
  rw [Bool.or_eq_true, beq_iff_eq, beq_iff_eq]
  constructor
  · rintro (h | h)
    · subst h
      intro c hc
      exact absurd hc (List.not_mem_nil c)
    · exact (jsTrim_eq_empty_iff url).mp h
  · intro h
    exact Or.inr ((jsTrim_eq_empty_iff url).mpr h)

theorem foldl_add_map {α : Type} (g : α → Nat) (l : List α) (n : Nat) :
    l.foldl (fun t x => t + g x) n = n + (l.map g).sum := by
  induction l generalizing n with
  | nil => simp
  | cons a l ih => simp [ih, Nat.add_assoc]

/-- The total link count a document set yields, expressed as a nested sum. -/
def linkTotal (docs : List Document) (fields : List String) : Nat :=
  (docs.map fun d => (fields.map fun f => (urlsOfValue (d.get f)).length).sum).sum

theorem harvest_length (docs : List Document) (fields : List String) :
    (harvest docs fields).length = linkTotal docs fields := by
  simp [harvest, linkTotal, List.length_flatMap, Function.comp_def]

theorem countPass_eq_linkTotal (docs : List Document) (fields : List String) :
    countPass docs fields = linkTotal docs fields := by
  have h1 : countPass docs fields =
      docs.foldl
        (fun tot d => tot + (fields.map fun f => (urlsOfValue (d.get f)).length).sum) 0 := by
    unfold countPass
    congr 1
    funext tot d
    exact foldl_add_map _ fields tot
  rw [h1, foldl_add_map, Nat.zero_add, linkTotal]

theorem checkStep_currentLink (net : Network) (tL dId : Nat) (fld : String)
    (st : PassState) (url : String) :
    (checkStep net tL dId fld st url).currentLink = st.currentLink + 1 := by
  unfold checkStep
  cases h : (checkUrl net url).broken <;> simp [h]

theorem foldl_checkStep_currentLink (net : Network) (tL dId : Nat) (fld : String)
    (urls : List String) (st : PassState) :
    (urls.foldl (checkStep net tL dId fld) st).currentLink = st.currentLink + urls.length := by
  induction urls generalizing st with
  | nil => simp
  | cons u us ih =>
    rw [List.foldl_cons, ih, checkStep_currentLink, List.length_cons]
    omega

theorem foldl_fields_currentLink (net : Network) (tL : Nat) (d : Document)
    (fields : List String) (st : PassState) :
    ((fields.foldl
        (fun st2 f => (urlsOfValue (d.get f)).foldl (checkStep net tL d.id f) st2) st).currentLink)
      = st.currentLink + (fields.map fun f => (urlsOfValue (d.get f)).length).sum := by
  induction fields generalizing st with
  | nil => simp
  | cons f fs ih =>
    rw [List.foldl_cons, ih, foldl_checkStep_currentLink]
    simp [Nat.add_assoc]

theorem runCheckPass_currentLink (net : Network) (docs : List Document)
    (fields : List String) (tL : Nat) :
    (runCheckPass net docs fields tL).currentLink = linkTotal docs fields := by
  have aux : ∀ (ds : List Document) (st : PassState),
      ((ds.foldl
          (fun st d =>
            fields.foldl
              (fun st2 f => (urlsOfValue (d.get f)).foldl (checkStep net tL d.id f) st2) st)
          st).currentLink)
        = st.currentLink + linkTotal ds fields := by
    intro ds
    induction ds with
    | nil => intro st; simp [linkTotal]
    | cons d ds ih =>
      intro st
      rw [List.foldl_cons, ih, foldl_fields_currentLink]
      simp [linkTotal, Nat.add_assoc]
  have := aux docs ⟨0, 0, [], []⟩
  simpa [runCheckPass] using this

theorem mem_addField {acc : List String} {k f : String} :
    f ∈ addField acc k ↔ f ∈ acc ∨ f = k := by
  unfold addField
  by_cases h : k ∈ acc
  · simp only [if_pos h]
    constructor
    · exact Or.inl
    · rintro (h1 | rfl)
      · exact h1
      · exact h
  · simp [if_neg h]

theorem mem_sniffFold (d : Document) (ks : List String) (acc : List String) (f : String) :
    (f ∈ ks.foldl (fun a k => if qualifies (d.get k) then addField a k else a) acc) ↔
      f ∈ acc ∨ (f ∈ ks ∧ qualifies (d.get f) = true) := by
  induction ks generalizing acc with
  | nil => simp
  | cons k ks ih =>
    rw [List.foldl_cons]
    cases hq : qualifies (d.get k) with
    | false =>
      have hn : ¬(f = k ∧ qualifies (d.get f) = true) := by
        rintro ⟨rfl, hc⟩
        rw [hq] at hc
        cases hc
      simp only [hq, Bool.false_eq_true, if_false, ih, List.mem_cons]
      tauto
    | true =>
      have hy : f = k → qualifies (d.get f) = true := fun h => h ▸ hq
      simp only [hq, if_true, ih, mem_addField, List.mem_cons]
      tauto

theorem mem_sniffStep (acc : List String) (d : Document) (f : String) :
    f ∈ sniffStep acc d ↔ f ∈ acc ∨ (f ∈ d.keys ∧ qualifies (d.get f) = true) :=
  mem_sniffFold d d.keys acc f

theorem mem_sniff_foldl (sample : List Document) (acc : List String) (f : String) :
    f ∈ sample.foldl sniffStep acc ↔
      f ∈ acc ∨ ∃ d ∈ sample, f ∈ d.keys ∧ qualifies (d.get f) = true := by
  induction sample generalizing acc with
  | nil => simp
  | cons d ds ih =>
    rw [List.foldl_cons, ih, mem_sniffStep, List.exists_mem_cons_iff]
    tauto

theorem lookup_eq_none_of_not_mem {l : List (String × JsValue)} {f : String}
    (h : f ∉ l.map Prod.fst) : l.lookup f = none := by
  induction l with
  | nil => rfl
  | cons kv l ih =>
    obtain ⟨k, v⟩ := kv
    simp only [List.map_cons, List.mem_cons] at h
    push_neg at h
    rw [show List.lookup f ((k, v) :: l) = List.lookup f l by
      simp [List.lookup, beq_eq_false_iff_ne.mpr h.1]]
    exact ih h.2

theorem get_eq_vundef_of_not_mem_keys {d : Document} {f : String} (h : f ∉ d.keys) :
    d.get f = .vundefined := by
  unfold Document.get
  rw [lookup_eq_none_of_not_mem h]
  rfl

theorem arrStep_eq_append (acc : List String) (item : JsValue) :
    arrStep acc item = acc ++ arrStep [] item := by
  cases item <;> simp [arrStep]

theorem foldl_arrStep_append (items : List JsValue) (acc : List String) :
    items.foldl arrStep acc = acc ++ items.foldl arrStep [] := by
  induction items generalizing acc with
  | nil => simp
  | cons it its ih =>
    rw [List.foldl_cons, List.foldl_cons, ih (arrStep acc it), ih (arrStep [] it),
      arrStep_eq_append acc it, List.append_assoc]

theorem foldl_arrStep_ne_nil {s : String} {items : List JsValue}
    (hmem : JsValue.vstr s ∈ items) (hne : extractWithFallback s ≠ []) :
    items.foldl arrStep [] ≠ [] := by
  induction items with
  | nil => cases hmem
  | cons it its ih =>
    rw [List.foldl_cons, foldl_arrStep_append]
    rcases List.mem_cons.mp hmem with heq | h
    · rw [← heq]
      have harr : arrStep [] (.vstr s) = extractWithFallback s := by simp [arrStep]
      rw [harr]
      exact List.append_ne_nil_of_left_ne_nil hne _
    · intro hcontra
      exact ih h (List.append_eq_nil.mp hcontra).2

theorem checkUrl_guard_false_of_not_ws {url : String}
    (h : ¬ ∀ c ∈ url.data, jsWhitespace c = true) :
    (url == "" || jsTrim url == "") = false := by
  cases hg : (url == "" || jsTrim url == "") with
  | false => rfl
  | true => exact absurd ((checkUrl_guard_iff url).mp hg) h

theorem checkUrl_youtube_ok (net : Network) (url : String) (r : Response)
    (hg : (url == "" || jsTrim url == "") = false)
    (hyt : (jsIncludes url "youtube.com" || jsIncludes url "youtu.be") = true)
    (hnet : net url .GET = .ok r) :
    checkUrl net url =
      ⟨unavailablePhrases.any (fun phrase => jsIncludes r.body phrase), none, [(url, .GET)]⟩ := by
  simp only [checkUrl, hg, Bool.false_eq_true, if_false, hyt, if_true, hnet]

theorem checkUrl_youtube_err (net : Network) (url : String) (m : String)
    (hg : (url == "" || jsTrim url == "") = false)
    (hyt : (jsIncludes url "youtube.com" || jsIncludes url "youtu.be") = true)
    (hnet : net url .GET = .err m) :
    checkUrl net url = ⟨true, some m, [(url, .GET)]⟩ := by
  simp only [checkUrl, hg, Bool.false_eq_true, if_false, hyt, if_true, hnet]

theorem checkUrl_head_ok_not404 (net : Network) (url : String) (r : Response)
    (hg : (url == "" || jsTrim url == "") = false)
    (hyt : (jsIncludes url "youtube.com" || jsIncludes url "youtu.be") = false)
    (hnet : net url .HEAD = .ok r) (hst : r.status ≠ 404) :
    checkUrl net url = ⟨false, none, [(url, .HEAD)]⟩ := by
  have hst2 : (r.status == 404) = false := by simpa using hst
  simp only [checkUrl, hg, Bool.false_eq_true, if_false, hyt, hnet, hst2]

theorem checkUrl_head_404_get_ok (net : Network) (url : String) (r r2 : Response)
    (hg : (url == "" || jsTrim url == "") = false)
    (hyt : (jsIncludes url "youtube.com" || jsIncludes url "youtu.be") = false)
    (hnet : net url .HEAD = .ok r) (hst : r.status = 404)
    (hnet2 : net url .GET = .ok r2) :
    checkUrl net url = ⟨r2.status == 404, none, [(url, .HEAD), (url, .GET)]⟩ := by
  have hst2 : (r.status == 404) = true := by simpa using hst
  simp only [checkUrl, hg, Bool.false_eq_true, if_false, hyt, hnet, hst2, if_true, hnet2]

theorem checkUrl_head_404_get_err (net : Network) (url : String) (r : Response) (m : String)
    (hg : (url == "" || jsTrim url == "") = false)
    (hyt : (jsIncludes url "youtube.com" || jsIncludes url "youtu.be") = false)
    (hnet : net url .HEAD = .ok r) (hst : r.status = 404)
    (hnet2 : net url .GET = .err m) :
    checkUrl net url = ⟨true, some m, [(url, .HEAD), (url, .GET)]⟩ := by
  have hst2 : (r.status == 404) = true := by simpa using hst
  simp only [checkUrl, hg, Bool.false_eq_true, if_false, hyt, hnet, hst2, if_true, hnet2]

theorem checkUrl_head_err (net : Network) (url : String) (m : String)
    (hg : (url == "" || jsTrim url == "") = false)
    (hyt : (jsIncludes url "youtube.com" || jsIncludes url "youtu.be") = false)
    (hnet : net url .HEAD = .err m) :
    checkUrl net url = ⟨true, some m, [(url, .HEAD)]⟩ := by
  simp only [checkUrl, hg, Bool.false_eq_true, if_false, hyt, hnet]

theorem scanUrlsAux_nil (fuel : Nat) : scanUrlsAux fuel [] = [] := by
  cases fuel <;> rfl

theorem matchAt_http (r : List Char) (hr : r ≠ []) (hall : ∀ c ∈ r, urlChar c = true) :
    matchAt ("http://".data ++ r) = some ("http://".data ++ r, []) := by
  have hpre : ("http://".data).isPrefixOf ("http://".data ++ r) = true :=
    List.isPrefixOf_iff_prefix.mpr (List.prefix_append _ _)
  have hdrop : ("http://".data ++ r).drop 7 = r := List.drop_left "http://".data r
  have htw : r.takeWhile urlChar = r := List.takeWhile_eq_self_iff.mpr hall
  have hne : r.isEmpty = false := List.isEmpty_eq_false.mpr hr
  have hstep : ("http://".data ++ r).drop ("http://".data.length + r.length) = r.drop r.length :=
    List.drop_append r.length
  have hdropall : ("http://".data ++ r).drop (7 + r.length) = [] := by
    rw [show (7 : Nat) + r.length = "http://".data.length + r.length from rfl, hstep,
      List.drop_length]
  simp only [matchAt, hpre, if_true, hdrop, htw, hne, Bool.false_eq_true, if_false, hdropall]

theorem scanUrls_single_http (r : List Char) (hr : r ≠ [])
    (hall : ∀ c ∈ r, urlChar c = true) :
    scanUrls ("http://".data ++ r) = ["http://".data ++ r] := by
  have hm' : matchAt ('h' :: ("ttp://".data ++ r)) = some ('h' :: ("ttp://".data ++ r), []) :=
    matchAt_http r hr hall
  show scanUrlsAux ("http://".data ++ r).length ("http://".data ++ r) = ["http://".data ++ r]
  change scanUrlsAux (("ttp://".data ++ r).length + 1) ('h' :: ("ttp://".data ++ r)) =
    ['h' :: ("ttp://".data ++ r)]
  simp only [scanUrlsAux]
  rw [hm']
  simp [scanUrlsAux_nil]

theorem matchAt_https (r : List Char) (hr : r ≠ []) (hall : ∀ c ∈ r, urlChar c = true) :
    matchAt ("https://".data ++ r) = some ("https://".data ++ r, []) := by
  have hpre0 : ("http://".data).isPrefixOf ("https://".data ++ r) = false := rfl
  have hpre : ("https://".data).isPrefixOf ("https://".data ++ r) = true :=
    List.isPrefixOf_iff_prefix.mpr (List.prefix_append _ _)
  have hdrop : ("https://".data ++ r).drop 8 = r := List.drop_left "https://".data r
  have htw : r.takeWhile urlChar = r := List.takeWhile_eq_self_iff.mpr hall
  have hne : r.isEmpty = false := List.isEmpty_eq_false.mpr hr
  have hstep : ("https://".data ++ r).drop ("https://".data.length + r.length) = r.drop r.length :=
    List.drop_append r.length
  have hdropall : ("https://".data ++ r).drop (8 + r.length) = [] := by
    rw [show (8 : Nat) + r.length = "https://".data.length + r.length from rfl, hstep,
      List.drop_length]
  simp only [matchAt, hpre0, Bool.false_eq_true, if_false, hpre, if_true, hdrop, htw, hne,
    hdropall]

theorem scanUrls_single_https (r : List Char) (hr : r ≠ [])
    (hall : ∀ c ∈ r, urlChar c = true) :
    scanUrls ("https://".data ++ r) = ["https://".data ++ r] := by
  have hm' : matchAt ('h' :: ("ttps://".data ++ r)) = some ('h' :: ("ttps://".data ++ r), []) :=
    matchAt_https r hr hall
  show scanUrlsAux ("https://".data ++ r).length ("https://".data ++ r) = ["https://".data ++ r]
  change scanUrlsAux (("ttps://".data ++ r).length + 1) ('h' :: ("ttps://".data ++ r)) =
    ['h' :: ("ttps://".data ++ r)]
  simp only [scanUrlsAux]
  rw [hm']
  simp [scanUrlsAux_nil]

/-!
The claim theorems.
-/

/-- Claim C1: for every document set and candidate field set, the two passes
enumerate exactly the same occurrences in the same order: the total computed
by the counting pass equals the length of the occurrence sequence of the
checking pass, and the running link index reached by the checking pass (on
any network whatsoever) equals that same total. -/
theorem two_pass_enumeration_agreement (net : Network) (docs : List Document)
    (fields : List String) (totalLinks : Nat) :
    countPass docs fields = (harvest docs fields).length ∧
    (runCheckPass net docs fields totalLinks).currentLink = countPass docs fields := by
  constructor
  · rw [countPass_eq_linkTotal, harvest_length]
  · rw [runCheckPass_currentLink, countPass_eq_linkTotal]

/-- Witness for C1 at a concrete document set. -/
theorem two_pass_enumeration_agreement_witness :
    countPass [sampleDoc, sampleDoc2] ["link"] = (harvest [sampleDoc, sampleDoc2] ["link"]).length ∧
    (runCheckPass netOk200 [sampleDoc, sampleDoc2] ["link"] 1).currentLink =
      countPass [sampleDoc, sampleDoc2] ["link"] :=
  two_pass_enumeration_agreement netOk200 [sampleDoc, sampleDoc2] ["link"] 1

/-- Claim C2: for every URL containing `youtube.com` or `youtu.be` — in
particular every URL whose host is a YouTube video host — whose full content
fetch succeeds with response `r`, `checkUrl` issues exactly that one GET
fetch and classifies the URL broken iff the body contains one of the four
unavailability phrases; the status code of `r` plays no role. -/
theorem checkUrl_youtube_content_rule (net : Network) (url : String) (r : Response)
    (hyt : (jsIncludes url "youtube.com" || jsIncludes url "youtu.be") = true)
    (hnet : net url .GET = .ok r) :
    ((checkUrl net url).broken = true ↔
      (jsIncludes r.body "This video is no longer available" = true ∨
       jsIncludes r.body "Video unavailable" = true ∨
       jsIncludes r.body "This video is private" = true ∨
       jsIncludes r.body "has been removed" = true)) ∧
    (checkUrl net url).trace = [(url, .GET)] := by
  have hws : ¬ ∀ a ∈ url.data, jsWhitespace a = true := by
    have hyt2 := hyt
    rw [Bool.or_eq_true] at hyt2
    rcases hyt2 with h | h
    · exact @not_all_whitespace_of_includes url "youtube.com" 'y' (by decide) (by decide) h
    · exact @not_all_whitespace_of_includes url "youtu.be" 'y' (by decide) (by decide) h
  have hg := checkUrl_guard_false_of_not_ws hws
  rw [checkUrl_youtube_ok net url r hg hyt hnet]
  constructor
  · show (unavailablePhrases.any fun phrase => jsIncludes r.body phrase) = true ↔ _
    simp [unavailablePhrases]
  · rfl

/-- Witness for C2: a YouTube URL whose body says the video is unavailable
is classified broken. -/
theorem checkUrl_youtube_content_rule_witness :
    (checkUrl netYtGone "https://www.youtube.com/watch?v=abc").broken = true :=
  (checkUrl_youtube_content_rule netYtGone "https://www.youtube.com/watch?v=abc"
      ⟨200, "Sorry. Video unavailable."⟩ (by decide) rfl).1.mpr
    (Or.inr (Or.inl (by decide)))

/-- Counterexample to claim C3 as stated: the URL `" "` is non-empty and
non-YouTube, yet `checkUrl` issues no existence probe at all (its fetch
trace is empty) — the whitespace guard returns not-broken first. -/
theorem whitespace_url_skips_probe :
    " " ≠ "" ∧ jsIncludes " " "youtube.com" = false ∧ jsIncludes " " "youtu.be" = false ∧
    checkUrl netOk200 " " = ⟨false, none, []⟩ := by decide

/-- Claim C3 (amended): for every non-YouTube URL that is neither empty nor
whitespace-only, `checkUrl` first issues a headers-only HEAD probe; a probe
status other than 404 yields not-broken with no second fetch, and a 404
probe escalates to exactly one GET of the same URL, broken iff that GET is
also 404. -/
theorem checkUrl_non_youtube_probe_policy (net : Network) (url : String)
    (hws : ¬ ∀ c ∈ url.data, jsWhitespace c = true)
    (hyt : (jsIncludes url "youtube.com" || jsIncludes url "youtu.be") = false) :
    (∀ r, net url .HEAD = .ok r → r.status ≠ 404 →
      checkUrl net url = ⟨false, none, [(url, .HEAD)]⟩) ∧
    (∀ r r2, net url .HEAD = .ok r → r.status = 404 → net url .GET = .ok r2 →
      checkUrl net url = ⟨r2.status == 404, none, [(url, .HEAD), (url, .GET)]⟩) := by
  have hg := checkUrl_guard_false_of_not_ws hws
  exact ⟨fun r h1 h2 => checkUrl_head_ok_not404 net url r hg hyt h1 h2,
    fun r r2 h1 h2 h3 => checkUrl_head_404_get_ok net url r r2 hg hyt h1 h2 h3⟩

/-- Witness for C3 (amended): a 404 probe followed by a 404 full fetch is
classified broken, with exactly the HEAD-then-GET trace. -/
theorem checkUrl_non_youtube_probe_policy_witness :
    checkUrl netGone404 "https://dead.example.org/page" =
      ⟨true, none,
        [("https://dead.example.org/page", .HEAD), ("https://dead.example.org/page", .GET)]⟩ := by
  have h := (checkUrl_non_youtube_probe_policy netGone404 "https://dead.example.org/page"
      (by decide) (by decide)).2 ⟨404, "not found"⟩ ⟨404, "not found"⟩ rfl rfl rfl
  simpa using h

/-- Claim C4: a transport failure at any fetch of `checkUrl` — the YouTube
GET, the HEAD probe, or the escalation GET — yields broken with the failure
message retained, and the checking pass still visits every occurrence (its
final link index equals the full enumeration's length on any network). -/
theorem checkUrl_transport_failure_policy (net : Network) (url : String) (m : String)
    (hws : ¬ ∀ c ∈ url.data, jsWhitespace c = true) :
    ((jsIncludes url "youtube.com" || jsIncludes url "youtu.be") = true →
      net url .GET = .err m → checkUrl net url = ⟨true, some m, [(url, .GET)]⟩) ∧
    ((jsIncludes url "youtube.com" || jsIncludes url "youtu.be") = false →
      net url .HEAD = .err m → checkUrl net url = ⟨true, some m, [(url, .HEAD)]⟩) ∧
    (∀ r, (jsIncludes url "youtube.com" || jsIncludes url "youtu.be") = false →
      net url .HEAD = .ok r → r.status = 404 → net url .GET = .err m →
      checkUrl net url = ⟨true, some m, [(url, .HEAD), (url, .GET)]⟩) ∧
    (∀ docs fields totalLinks,
      (runCheckPass net docs fields totalLinks).currentLink = (harvest docs fields).length) := by
  have hg := checkUrl_guard_false_of_not_ws hws
  refine ⟨fun hyt h => checkUrl_youtube_err net url m hg hyt h,
    fun hyt h => checkUrl_head_err net url m hg hyt h,
    fun r hyt h1 h2 h3 => checkUrl_head_404_get_err net url r m hg hyt h1 h2 h3,
    fun docs fields totalLinks => ?_⟩
  rw [runCheckPass_currentLink, harvest_length]

/-- Witness for C4: a refused connection on the HEAD probe is classified
broken, retaining the message. -/
theorem checkUrl_transport_failure_policy_witness :
    checkUrl netDown "https://unreachable.example/x" =
      ⟨true, some "connect ECONNREFUSED", [("https://unreachable.example/x", .HEAD)]⟩ :=
  (checkUrl_transport_failure_policy netDown "https://unreachable.example/x"
      "connect ECONNREFUSED" (by decide)).2.1 (by decide) rfl

/-- Claim C5: a field name is in the sniffed candidate set iff some sampled
document holds, in that field, a string value or a string array element
containing `http://` or `https://`; and a field once added is never removed
by later documents (sniffing a longer sample keeps it). -/
theorem sniff_adds_iff_sample_link (sample more : List Document) (f : String) :
    (f ∈ sniff sample ↔ ∃ d ∈ sample, qualifies (d.get f) = true) ∧
    (f ∈ sniff sample → f ∈ sniff (sample ++ more)) := by
  constructor
  · rw [sniff, mem_sniff_foldl]
    constructor
    · rintro (h | ⟨d, hd, _, hq⟩)
      · exact absurd h (List.not_mem_nil f)
      · exact ⟨d, hd, hq⟩
    · rintro ⟨d, hd, hq⟩
      right
      refine ⟨d, hd, ?_, hq⟩
      by_contra hk
      rw [get_eq_vundef_of_not_mem_keys hk] at hq
      simp [qualifies] at hq
  · intro h
    rw [sniff, List.foldl_append]
    exact (mem_sniff_foldl more (sniff sample) f).mpr (Or.inl h)

/-- Witness for C5 at a concrete sample. -/
theorem sniff_adds_iff_sample_link_witness :
    "link" ∈ sniff [sampleDoc] ∧ "link" ∈ sniff ([sampleDoc] ++ [sampleDoc2]) := by
  have h := sniff_adds_iff_sample_link [sampleDoc] [sampleDoc2] "link"
  have h1 : "link" ∈ sniff [sampleDoc] := h.1.mpr ⟨sampleDoc, by simp, by decide⟩
  exact ⟨h1, h.2 h1⟩

/-- Claim C6: a string value that begins with `http://` or `https://` is
never silently dropped by harvesting: when extraction finds nothing the
whole value is emitted as the one URL, the harvested URL list of such a
string field is never empty, and an array containing such a string element
harvests at least one URL. -/
theorem bare_link_never_dropped (s : String)
    (h : (jsStartsWith s "http://" || jsStartsWith s "https://") = true) :
    (extractUrlsFromText s = [] → extractWithFallback s = [s]) ∧
    extractWithFallback s ≠ [] ∧
    urlsOfValue (.vstr s) = extractWithFallback s ∧
    (∀ items : List JsValue, JsValue.vstr s ∈ items → urlsOfValue (.varr items) ≠ []) := by
  have hfb : extractUrlsFromText s = [] → extractWithFallback s = [s] := by
    intro he
    simp [extractWithFallback, he, h]
  have hne : extractWithFallback s ≠ [] := by
    simp only [extractWithFallback]
    cases hemp : (extractUrlsFromText s).isEmpty with
    | true => simp [hemp, h]
    | false => simp [hemp, List.isEmpty_eq_false.mp hemp]
  have hs : s ≠ "" := by
    intro he
    subst he
    exact absurd h (by decide)
  refine ⟨hfb, hne, ?_, ?_⟩
  · simp [urlsOfValue, falsy, beq_eq_false_iff_ne.mpr hs]
  · intro items hmem
    have harr : urlsOfValue (.varr items) = items.foldl arrStep [] := by
      simp [urlsOfValue, falsy]
    rw [harr]
    exact foldl_arrStep_ne_nil hmem hne

/-- Witness for C6: the bare value `"http://"`, on which extraction finds
nothing, is emitted whole, directly and as an array element. -/
theorem bare_link_never_dropped_witness :
    extractWithFallback "http://" = ["http://"] ∧
    urlsOfValue (.varr [.vstr "http://"]) ≠ [] := by
  have h := bare_link_never_dropped "http://" (by decide)
  exact ⟨h.1 (by decide), h.2.2.2 [.vstr "http://"] (by simp)⟩

/-- Claim C7: when the sniffer finds no candidate field in the sample, the
session ends in the `noLinksFound` terminal outcome with no fetch performed
at all — the counting and checking passes are never entered. -/
theorem session_no_links_found (net : Network) (docs : List Document)
    (h : sniff (docs.take 10) = []) :
    auditSession net docs = (.noLinksFound, []) := by
  simp [auditSession, h]

/-- Witness for C7 at a one-document set with no link field. -/
theorem session_no_links_found_witness :
    auditSession netOk200 [sampleDoc2] = (.noLinksFound, []) :=
  session_no_links_found netOk200 [sampleDoc2] (by decide)

/-- Counterexample to claim C8 as stated: `"http://"` starts with the
scheme and contains no whitespace or quote character after it, yet
extraction returns the empty sequence, not the one-element sequence
holding the value. -/
theorem bare_scheme_extracts_nothing :
    jsStartsWith "http://" "http://" = true ∧
    ("http://".data.drop 7).all urlChar = true ∧
    extractUrlsFromText "http://" = [] := by decide

/-- Claim C8 (amended): for every text value that is a scheme followed by
at least one character, all of which avoid whitespace and quotes, `extract`
returns the one-element sequence holding exactly the whole value. -/
theorem extract_exactly_one_url (r : List Char) (hr : r ≠ [])
    (hall : ∀ c ∈ r, urlChar c = true) :
    extractUrlsFromText (String.mk ("http://".data ++ r)) =
      [String.mk ("http://".data ++ r)] ∧
    extractUrlsFromText (String.mk ("https://".data ++ r)) =
      [String.mk ("https://".data ++ r)] := by
  constructor
  · show (scanUrls (String.mk ("http://".data ++ r)).data).map String.mk = _
    rw [show (String.mk ("http://".data ++ r)).data = "http://".data ++ r from rfl,
      scanUrls_single_http r hr hall]
    rfl
  · show (scanUrls (String.mk ("https://".data ++ r)).data).map String.mk = _
    rw [show (String.mk ("https://".data ++ r)).data = "https://".data ++ r from rfl,
      scanUrls_single_https r hr hall]
    rfl

/-- Witness for C8 (amended) at a concrete one-URL value. -/
theorem extract_exactly_one_url_witness :
    extractUrlsFromText (String.mk ("http://".data ++ "example.com/a".data)) =
      [String.mk ("http://".data ++ "example.com/a".data)] ∧
    extractUrlsFromText (String.mk ("https://".data ++ "example.com/a".data)) =
      [String.mk ("https://".data ++ "example.com/a".data)] :=
  extract_exactly_one_url "example.com/a".data (by decide) (by decide)

/-- Claim C9: an empty or all-whitespace URL is classified not broken and
no fetch is performed at all. -/
theorem checkUrl_blank_no_fetch (net : Network) (url : String)
    (h : ∀ c ∈ url.data, jsWhitespace c = true) :
    checkUrl net url = ⟨false, none, []⟩ := by
  have hg := (checkUrl_guard_iff url).mpr h
  simp [checkUrl, hg]

/-- Witness for C9 at the two-space URL. -/
theorem checkUrl_blank_no_fetch_witness :
    checkUrl netOk200 "  " = ⟨false, none, []⟩ :=
  checkUrl_blank_no_fetch netOk200 "  " (by decide)

/-- Claim C10: a falsy field value — absent, null, false, 0 or the empty
string — is skipped entirely by both passes: it harvests no URL, a document
holding only it contributes zero to the count and nothing to the occurrence
sequence, and the empty-string value behaves exactly like an absent one. -/
theorem falsy_field_contributes_nothing (v : JsValue) (fld : String) (i : Nat)
    (h : falsy v = true) :
    urlsOfValue v = [] ∧
    countPass [⟨i, [(fld, v)]⟩] [fld] = 0 ∧
    harvest [⟨i, [(fld, v)]⟩] [fld] = [] ∧
    urlsOfValue (.vstr "") = urlsOfValue .vundefined := by
  have h1 : urlsOfValue v = [] := by simp [urlsOfValue, h]
  have hget : (Document.mk i [(fld, v)]).get fld = v := by
    simp [Document.get, List.lookup]
  refine ⟨h1, ?_, ?_, by simp [urlsOfValue, falsy]⟩
  · simp [countPass, hget, h1]
  · simp [harvest, hget, h1]

/-- Witness for C10 at the empty-string field value. -/
theorem falsy_field_contributes_nothing_witness :
    urlsOfValue (.vstr "") = [] ∧
    countPass [⟨0, [("link", .vstr "")]⟩] ["link"] = 0 ∧
    harvest [⟨0, [("link", .vstr "")]⟩] ["link"] = [] ∧
    urlsOfValue (.vstr "") = urlsOfValue .vundefined :=
  falsy_field_contributes_nothing (.vstr "") "link" 0 (by decide)

end DbChecker
